import Mathlib

/-!
Verification of the deployment-packaging scripts.

The embedding covers:
  * the exclusion predicate should_exclude of create_deployment_zip.py
    (Archive Builder B), including its substring pattern matching and its
    dot-segment rule with the two allow-listed names;
  * the os.walk based zip loop of create_deployment_zip.py (directory
    pruning, per-file filtering, arcname computation, per-file prints);
  * the unfiltered zip loop of create_aws_zip.py (Archive Builder A);
  * the guarded delete-before-recreate steps of both builders, as a small
    exception-aware state model.

Paths are the strings the scripts manipulate.  Splitting a path into
segments (pathlib.PurePath.parts for the relative POSIX paths these
scripts build) is modelled character by character, as is Python substring
containment and startswith, so that every predicate is kernel-computable.
-/

/-- True when pat occurs at the very start of hay.  Character-level model
of matching a Python string at a fixed position. -/
def isSubAt : List Char → List Char → Bool
  | [], _ => true
  | _ :: _, [] => false
  | p :: ps, h :: hs => p == h && isSubAt ps hs

/-- True when pat occurs contiguously anywhere in hay. -/
def hasSub (pat : List Char) : List Char → Bool
  | [] => isSubAt pat []
  | h :: hs => isSubAt pat (h :: hs) || hasSub pat hs

/-- Model of the Python expression pattern in part: contiguous substring
containment. -/
def substrOf (pat s : String) : Bool := hasSub pat.toList s.toList

/-- Model of the Python expression part.startswith(.): the first character
is a dot. -/
def startsDot (s : String) : Bool :=
  match s.toList with
  | [] => false
  | c :: _ => c == '.'

/-- Model of the Python expression s.endswith(suf). -/
def strEndsWith (s suf : String) : Bool :=
  isSubAt suf.toList.reverse s.toList.reverse

/-- Splits a character list at every slash; raw segments, possibly empty. -/
def splitSlash : List Char → List (List Char)
  | [] => [[]]
  | c :: cs =>
    if c = '/' then [] :: splitSlash cs
    else
      match splitSlash cs with
      | [] => [[c]]
      | s :: ss => (c :: s) :: ss

/-- Model of Path(path_str).parts for the relative POSIX paths the scripts
build: split at slashes and drop empty and single-dot components (pathlib
normalises those away). -/
def pathParts (p : String) : List String :=
  ((splitSlash p.toList).map String.mk).filter (fun s => !(s == "") && !(s == "."))

/-- create_deployment_zip.py lines 16-19: the exclude_patterns set. -/
def exclude_patterns : List String :=
  ["node_modules", ".git", "dist", ".env", ".DS_Store", "__pycache__",
   "*.log", "*.tmp", ".vscode", ".idea"]

/-- create_deployment_zip.py line 26: the allow-list checked before the
dot-segment rule. -/
def allowedDotNames : List String := [".ebextensions", ".platform"]

/-- Body of the loop in should_exclude (create_deployment_zip.py lines
23-27): a segment triggers exclusion when some pattern is a substring of
it, or when it starts with a dot and is not allow-listed.  Both branches
of the loop return True, so the early returns collapse to a disjunction. -/
def part_excluded (part : String) : Bool :=
  exclude_patterns.any (fun pattern => substrOf pattern part) ||
  (startsDot part && !(allowedDotNames.contains part))

/-- create_deployment_zip.py lines 21-28: should_exclude returns True as
soon as some segment of the path triggers, else False. -/
def should_exclude (path_str : String) : Bool :=
  (pathParts path_str).any part_excluded

mutual
/-- A directory tree: what os.walk traverses.  A node is a named file or a
named directory with a listing of children.  The listing is its own
inductive so that every traversal below is structurally recursive and
kernel-computable. -/
inductive FSTree : Type where
  | file : String → FSTree
  | dir : String → FSList → FSTree
/-- A directory listing: the children of one directory, in order. -/
inductive FSList : Type where
  | nil : FSList
  | cons : FSTree → FSList → FSList
end

/-- Builds a listing from a plain list of nodes; used to write concrete
trees. -/
def fsOf : List FSTree → FSList
  | [] => FSList.nil
  | t :: rest => FSList.cons t (fsOf rest)

/-- Model of os.path.join(root, name) for a relative name: the scripts only
join non-empty relative components. -/
def pjoin (root name : String) : String := root ++ "/" ++ name

/-- Model of os.path.relpath(p, base) for the shape the walks produce,
namely p = base ++ slash ++ rel: drop the base and the slash. -/
def relpath (p base : String) : String :=
  String.mk (p.toList.drop (base.toList.length + 1))

/-- The file names among a directory listing: the files component of an
os.walk triple. -/
def childFiles : FSList → List String
  | FSList.nil => []
  | FSList.cons (FSTree.file f) rest => f :: childFiles rest
  | FSList.cons (FSTree.dir _ _) rest => childFiles rest

/-- Observable events of a builder run: an archive write (zipf.write with
its arcname) or a printed line.  prSize carries the archive byte size whose
megabyte rendering (bytes divided by 1024*1024, one decimal) the script
prints; the floating-point formatting itself is left abstract. -/
inductive Ev : Type where
  | write : String → Ev
  | pr : String → Ev
  | prSize : Nat → Ev

/-- create_deployment_zip.py lines 35-41: the per-file loop of one os.walk
triple.  Every surviving file is written under its arcname and one Added
line is printed. -/
def fileEvents (src root : String) (children : FSList) : List Ev :=
  (childFiles children).flatMap (fun f =>
    if should_exclude (pjoin root f) then []
    else [Ev.write (relpath (pjoin root f) src),
          Ev.pr ("Added: " ++ relpath (pjoin root f) src)])

/-- create_deployment_zip.py lines 31-41, recursive part: os.walk visits the
subdirectories of the current root in order, skipping (pruning) each one the
predicate excludes; a visited subdirectory contributes its own files first
and then its subdirectories. -/
def walkEvSub (src root : String) : FSList → List Ev
  | FSList.nil => []
  | FSList.cons (FSTree.file _) rest => walkEvSub src root rest
  | FSList.cons (FSTree.dir d cc) rest =>
      (if should_exclude (pjoin root d) then []
       else fileEvents src (pjoin root d) cc ++ walkEvSub src (pjoin root d) cc)
      ++ walkEvSub src root rest

/-- create_deployment_zip.py lines 31-41: the whole walk from a root whose
listing is children: first the files of the root itself, then the pruned
recursion into subdirectories. -/
def walkEvDir (src root : String) (children : FSList) : List Ev :=
  fileEvents src root children ++ walkEvSub src root children

/-- The arcnames written to the archive, in order. -/
def writesOf (es : List Ev) : List String :=
  es.filterMap (fun e =>
    match e with
    | Ev.write a => some a
    | _ => none)

/-- The printed lines (print events), in order, writes dropped. -/
def printsOf (es : List Ev) : List Ev :=
  es.filter (fun e =>
    match e with
    | Ev.write _ => false
    | _ => true)

/-- Archive Builder B: entries of the archive produced from a staging tree
rooted at clean-aws-deploy (create_deployment_zip.py lines 8 and 30-41). -/
def zipEntriesB (t : FSList) : List String :=
  writesOf (walkEvDir "clean-aws-deploy" "clean-aws-deploy" t)

/-- create_aws_zip.py lines 42-47, recursive part: Archive Builder A walks
every subdirectory with no pruning and writes every file. -/
def walkASub (base root : String) : FSList → List String
  | FSList.nil => []
  | FSList.cons (FSTree.file _) rest => walkASub base root rest
  | FSList.cons (FSTree.dir d cc) rest =>
      ((childFiles cc).map (fun f => relpath (pjoin (pjoin root d) f) base)
        ++ walkASub base (pjoin root d) cc)
      ++ walkASub base root rest

/-- create_aws_zip.py lines 42-47: the whole unfiltered walk. -/
def walkADir (base root : String) (children : FSList) : List String :=
  (childFiles children).map (fun f => relpath (pjoin root f) base)
    ++ walkASub base root children

/-- Archive Builder A: entries of the archive produced from the staging tree
rooted at aws-clean-deployment by the zip loop of create_aws_zip.py. -/
def zipEntriesA (t : FSList) : List String :=
  walkADir "aws-clean-deployment" "aws-clean-deployment" t

/-- Every file path below a root with the given listing, in listing order;
no filtering.  The reference set the archives are compared against. -/
def allFilesSub (root : String) : FSList → List String
  | FSList.nil => []
  | FSList.cons (FSTree.file f) rest => pjoin root f :: allFilesSub root rest
  | FSList.cons (FSTree.dir d cc) rest =>
      allFilesSub (pjoin root d) cc ++ allFilesSub root rest

/-- create_deployment_zip.py line 44: the created message. -/
def createdLineB : String :=
  "\n✅ Deployment package created: kgc-healthcare-BUILD-COMPLETE.zip"

/-- create_deployment_zip.py line 46: the closing ready message. -/
def readyLineB : String := "🚀 Ready for AWS Elastic Beanstalk deployment"

/-- create_aws_zip.py: the opening banner. -/
def headerLineA : String := "🚀 Creating clean AWS deployment package with Python..."

/-- create_aws_zip.py: the created message. -/
def createdLineA : String :=
  "✅ Clean AWS deployment package created: keep-going-care-aws-deployment.zip"

/-- create_aws_zip.py: the closing ready message. -/
def readyLineA : String := "🎯 Ready for AWS Elastic Beanstalk deployment"

/-- Archive Builder B, observable run: the walk events followed by the three
closing prints (created message, size summary over the archive byte size,
ready message).  When the staging directory does not exist, os.walk yields
no triples and raises nothing (its onerror argument is left None), so the
walk portion is empty. -/
def builderB_events (staging : Option FSList) (zipBytes : Nat) : List Ev :=
  (match staging with
   | none => []
   | some t => walkEvDir "clean-aws-deploy" "clean-aws-deploy" t)
  ++ [Ev.pr createdLineB, Ev.prSize zipBytes, Ev.pr readyLineB]

/-- Archive Builder A, observable run: the banner, the writes of its zip
loop (which prints nothing per file), and the three closing prints. -/
def builderA_events (t : FSList) (zipBytes : Nat) : List Ev :=
  Ev.pr headerLineA :: (zipEntriesA t).map Ev.write
  ++ [Ev.pr createdLineA, Ev.prSize zipBytes, Ev.pr readyLineA]

/-- os.remove, shutil.rmtree or Path.unlink applied to a target that either
exists or not: deleting an existing target leaves it absent, deleting a
missing one raises FileNotFoundError. -/
def osRemove (targetExists : Bool) : Except String Bool :=
  if targetExists then Except.ok false else Except.error "FileNotFoundError"

/-- create_deployment_zip.py lines 12-13: the archive is unlinked only when
it exists.  Returns whether the archive still exists afterwards. -/
def zipUnlinkGuard (zipExists : Bool) : Except String Bool :=
  if zipExists then osRemove zipExists else pure zipExists

/-- The filesystem facts Archive Builder A manipulates: whether its archive
and its staging directory currently exist. -/
structure WorldA where
  zipExists : Bool
  stagingExists : Bool

/-- One full run of create_aws_zip.py as a transition on WorldA: guarded
delete of the prior archive, guarded delete of the prior staging directory,
then makedirs recreates the staging directory, the copy loops fill it,
zipfile.ZipFile with mode w creates the archive, and the final unguarded
shutil.rmtree removes the staging directory that was just created. -/
def builderA_step (w : WorldA) : Except String WorldA := do
  let _zipGone ← if w.zipExists then osRemove w.zipExists else pure w.zipExists
  let _stagingGone ← if w.stagingExists then osRemove w.stagingExists else pure w.stagingExists
  let stagingMade := true
  let zipMade := true
  let stagingFinal ← osRemove stagingMade
  pure { zipExists := zipMade, stagingExists := stagingFinal }

/-- One full run of create_deployment_zip.py: the guarded unlink of the
prior archive, then the walk and the closing prints.  ZipFile with mode w
creates the (possibly empty) archive even when the staging directory is
missing. -/
def builderB_run (staging : Option FSList) (zipExists : Bool) (zipBytes : Nat) :
    Except String (List Ev) := do
  let _ ← zipUnlinkGuard zipExists
  pure (builderB_events staging zipBytes)

/-- The files strictly below the subdirectories of a listing; proof helper
relating the walks to allFilesSub. -/
def dirFilesUnder (root : String) : FSList → List String
  | FSList.nil => []
  | FSList.cons (FSTree.file _) rest => dirFilesUnder root rest
  | FSList.cons (FSTree.dir d cc) rest =>
      allFilesSub (pjoin root d) cc ++ dirFilesUnder root rest

theorem isSubAt_self : ∀ l : List Char, isSubAt l l = true := by
  intro l
  induction l with
  | nil => rfl
  | cons c cs ih => simp [isSubAt, ih]

theorem substrOf_self (s : String) : substrOf s s = true := by
  unfold substrOf
  cases h : s.toList with
  | nil => rfl
  | cons c cs =>
    rw [hasSub]
    rw [← h, isSubAt_self]
    rfl

theorem splitSlash_ne_nil (cs : List Char) : splitSlash cs ≠ [] := by
  induction cs with
  | nil => simp [splitSlash]
  | cons c cs ih =>
    rw [splitSlash]
    by_cases h : c = '/'
    · simp [h]
    · simp only [if_neg h]
      cases hs : splitSlash cs with
      | nil => simp
      | cons s ss => simp

theorem splitSlash_append (a b : List Char) :
    splitSlash (a ++ '/' :: b) = splitSlash a ++ splitSlash b := by
  induction a with
  | nil => simp [splitSlash]
  | cons c cs ih =>
    rw [List.cons_append, splitSlash, splitSlash, ih]
    by_cases h : c = '/'
    · simp [h]
    · simp only [if_neg h]
      cases hs : splitSlash cs with
      | nil => exact absurd hs (splitSlash_ne_nil cs)
      | cons s ss => simp

theorem toList_append (a b : String) : (a ++ b).toList = a.toList ++ b.toList := by
  cases a
  cases b
  rfl

theorem pathParts_pjoin (a b : String) :
    pathParts (pjoin a b) = pathParts a ++ pathParts b := by
  unfold pathParts pjoin
  rw [toList_append, toList_append,
    show ("/" : String).toList = ['/'] from rfl, List.append_assoc,
    show (['/'] ++ b.toList : List Char) = '/' :: b.toList from rfl,
    splitSlash_append, List.map_append, List.filter_append]

theorem should_exclude_pjoin (a b : String) :
    should_exclude (pjoin a b) = (should_exclude a || should_exclude b) := by
  unfold should_exclude
  rw [pathParts_pjoin, List.any_append]

theorem relpath_pjoin (b x : String) : relpath (pjoin b x) b = x := by
  unfold relpath pjoin
  rw [toList_append, toList_append,
    show ("/" : String).toList = ['/'] from rfl, List.append_assoc,
    show (['/'] ++ x.toList : List Char) = '/' :: x.toList from rfl]
  rw [show b.toList.length + 1 = (b.toList ++ ['/']).length by simp,
    show (b.toList ++ '/' :: x.toList : List Char)
        = (b.toList ++ ['/']) ++ x.toList from by simp,
    List.drop_left]
  cases x
  rfl

theorem strAppend_assoc (a b c : String) : (a ++ b) ++ c = a ++ (b ++ c) := by
  cases a with | mk la =>
  cases b with | mk lb =>
  cases c with | mk lc =>
  show String.mk ((la ++ lb) ++ lc) = String.mk (la ++ (lb ++ lc))
  rw [List.append_assoc]

theorem pjoin_assoc (a b c : String) : pjoin (pjoin a b) c = pjoin a (pjoin b c) := by
  simp [pjoin, strAppend_assoc]

theorem allFilesSub_shape (root : String) (t : FSList) :
    ∀ p ∈ allFilesSub root t, ∃ rel, p = pjoin root rel := by
  induction root, t using allFilesSub.induct with
  | case1 root => simp [allFilesSub]
  | case2 root f rest ih =>
    intro p hp
    rcases List.mem_cons.1 hp with h | h
    · exact ⟨f, h⟩
    · exact ih p h
  | case3 root d cc rest ih1 ih2 =>
    intro p hp
    rcases List.mem_append.1 hp with h | h
    · rcases ih1 p h with ⟨rel, hrel⟩
      exact ⟨pjoin d rel, by rw [hrel, pjoin_assoc]⟩
    · exact ih2 p h

theorem allFilesSub_excluded (root : String) (t : FSList) :
    ∀ p ∈ allFilesSub root t, should_exclude root = true → should_exclude p = true := by
  induction root, t using allFilesSub.induct with
  | case1 root => simp [allFilesSub]
  | case2 root f rest ih =>
    intro p hp hroot
    rcases List.mem_cons.1 hp with h | h
    · rw [h, should_exclude_pjoin, hroot]
      rfl
    · exact ih p h hroot
  | case3 root d cc rest ih1 ih2 =>
    intro p hp hroot
    rcases List.mem_append.1 hp with h | h
    · exact ih1 p h (by rw [should_exclude_pjoin, hroot]; rfl)
    · exact ih2 p h hroot

theorem mem_allFilesSub_split (root : String) (t : FSList) (p : String) :
    p ∈ allFilesSub root t ↔
      (∃ f, f ∈ childFiles t ∧ p = pjoin root f) ∨ p ∈ dirFilesUnder root t := by
  induction t using dirFilesUnder.induct root with
  | case1 => simp [allFilesSub, dirFilesUnder, childFiles]
  | case2 f rest ih =>
    simp only [allFilesSub, dirFilesUnder, childFiles, List.mem_cons, ih]
    constructor
    · rintro (h | ⟨g, hg, hp⟩ | h)
      · exact Or.inl ⟨f, Or.inl rfl, h⟩
      · exact Or.inl ⟨g, Or.inr hg, hp⟩
      · exact Or.inr h
    · rintro (⟨g, rfl | hg, hp⟩ | h)
      · exact Or.inl hp
      · exact Or.inr (Or.inl ⟨g, hg, hp⟩)
      · exact Or.inr (Or.inr h)
  | case3 d cc rest ih =>
    simp only [allFilesSub, dirFilesUnder, childFiles, List.mem_append, ih]
    constructor
    · rintro (h | ⟨g, hg, hp⟩ | h)
      · exact Or.inr (Or.inl h)
      · exact Or.inl ⟨g, hg, hp⟩
      · exact Or.inr (Or.inr h)
    · rintro (⟨g, hg, hp⟩ | h | h)
      · exact Or.inr (Or.inl ⟨g, hg, hp⟩)
      · exact Or.inl h
      · exact Or.inr (Or.inr h)

theorem writesOf_append (l1 l2 : List Ev) :
    writesOf (l1 ++ l2) = writesOf l1 ++ writesOf l2 := by
  simp [writesOf]

theorem printsOf_append (l1 l2 : List Ev) :
    printsOf (l1 ++ l2) = printsOf l1 ++ printsOf l2 := by
  simp [printsOf]

theorem mem_writes_fileEvents (src root : String) (t : FSList) (a : String) :
    a ∈ writesOf (fileEvents src root t) ↔
      ∃ f, f ∈ childFiles t ∧ should_exclude (pjoin root f) = false ∧
        a = relpath (pjoin root f) src := by
  simp only [writesOf, fileEvents, List.mem_filterMap, List.mem_flatMap]
  constructor
  · rintro ⟨e, ⟨f, hf, he⟩, hsome⟩
    by_cases hex : should_exclude (pjoin root f) = true
    · simp [hex] at he
    · rw [Bool.not_eq_true] at hex
      simp only [hex, Bool.false_eq_true, if_false, List.mem_cons,
        List.mem_singleton] at he
      rcases he with he | he | he
      · subst he
        simp only [Option.some.injEq] at hsome
        exact ⟨f, hf, hex, hsome.symm⟩
      · subst he
        simp at hsome
      · simp at he
  · rintro ⟨f, hf, hex, ha⟩
    refine ⟨Ev.write (relpath (pjoin root f) src), ⟨f, hf, ?_⟩, by simp [ha]⟩
    simp [hex]

theorem mem_writes_walkEvSub (src root : String) (t : FSList) :
    ∀ a : String, a ∈ writesOf (walkEvSub src root t) ↔
      ∃ p, p ∈ dirFilesUnder root t ∧ should_exclude p = false ∧
        a = relpath p src := by
  induction root, t using walkEvSub.induct src with
  | case1 root => simp [walkEvSub, dirFilesUnder, writesOf]
  | case2 root f rest ih =>
    intro a
    rw [walkEvSub]
    simp only [dirFilesUnder]
    exact ih a
  | case3 root d cc rest ih1 ih2 =>
    intro a
    rw [walkEvSub]
    simp only [dirFilesUnder]
    by_cases hex : should_exclude (pjoin root d) = true
    · simp only [hex, if_true, List.nil_append]
      constructor
      · intro h
        rcases (ih2 a).1 h with ⟨p, hp, hexp, ha⟩
        exact ⟨p, List.mem_append_right _ hp, hexp, ha⟩
      · rintro ⟨p, hp, hexp, ha⟩
        rcases List.mem_append.1 hp with hp | hp
        · rw [allFilesSub_excluded (pjoin root d) cc p hp hex] at hexp
          simp at hexp
        · exact (ih2 a).2 ⟨p, hp, hexp, ha⟩
    · rw [Bool.not_eq_true] at hex
      simp only [hex, Bool.false_eq_true, if_false, writesOf_append,
        List.mem_append, mem_writes_fileEvents, ih1, ih2,
        mem_allFilesSub_split]
      constructor
      · rintro ((⟨f, hf, hexf, ha⟩ | ⟨p, hp, hexp, ha⟩) | ⟨p, hp, hexp, ha⟩)
        · exact ⟨pjoin (pjoin root d) f,
            Or.inl (Or.inl ⟨f, hf, rfl⟩), hexf, ha⟩
        · exact ⟨p, Or.inl (Or.inr hp), hexp, ha⟩
        · exact ⟨p, Or.inr hp, hexp, ha⟩
      · rintro ⟨p, (⟨f, hf, rfl⟩ | hp) | hp, hexp, ha⟩
        · exact Or.inl (Or.inl ⟨f, hf, hexp, ha⟩)
        · exact Or.inl (Or.inr ⟨p, hp, hexp, ha⟩)
        · exact Or.inr ⟨p, hp, hexp, ha⟩

theorem mem_writes_walkEvDir (src root : String) (t : FSList) (a : String) :
    a ∈ writesOf (walkEvDir src root t) ↔
      ∃ p, p ∈ allFilesSub root t ∧ should_exclude p = false ∧
        a = relpath p src := by
  simp only [walkEvDir, writesOf_append, List.mem_append,
    mem_writes_fileEvents, mem_writes_walkEvSub]
  constructor
  · rintro (⟨f, hf, hexf, ha⟩ | ⟨p, hp, hexp, ha⟩)
    · exact ⟨pjoin root f, (mem_allFilesSub_split root t _).2 (Or.inl ⟨f, hf, rfl⟩),
        hexf, ha⟩
    · exact ⟨p, (mem_allFilesSub_split root t _).2 (Or.inr hp), hexp, ha⟩
  · rintro ⟨p, hp, hexp, ha⟩
    rcases (mem_allFilesSub_split root t _).1 hp with ⟨f, hf, rfl⟩ | hp
    · exact Or.inl ⟨f, hf, hexp, ha⟩
    · exact Or.inr ⟨p, hp, hexp, ha⟩

theorem mem_walkASub (base root : String) (t : FSList) :
    ∀ a : String, a ∈ walkASub base root t ↔
      ∃ p, p ∈ dirFilesUnder root t ∧ a = relpath p base := by
  induction root, t using walkASub.induct base with
  | case1 root => simp [walkASub, dirFilesUnder]
  | case2 root f rest ih =>
    intro a
    rw [walkASub]
    simp only [dirFilesUnder]
    exact ih a
  | case3 root d cc rest ih1 ih2 =>
    intro a
    rw [walkASub]
    simp only [dirFilesUnder, List.mem_append, List.mem_map, ih1, ih2,
      mem_allFilesSub_split]
    constructor
    · rintro ((⟨f, hf, ha⟩ | ⟨p, hp, ha⟩) | ⟨p, hp, ha⟩)
      · exact ⟨pjoin (pjoin root d) f,
          Or.inl (Or.inl ⟨f, hf, rfl⟩), ha.symm⟩
      · exact ⟨p, Or.inl (Or.inr hp), ha⟩
      · exact ⟨p, Or.inr hp, ha⟩
    · rintro ⟨p, (⟨f, hf, rfl⟩ | hp) | hp, ha⟩
      · exact Or.inl (Or.inl ⟨f, hf, ha.symm⟩)
      · exact Or.inl (Or.inr ⟨p, hp, ha⟩)
      · exact Or.inr ⟨p, hp, ha⟩

theorem mem_walkADir (base root : String) (t : FSList) (a : String) :
    a ∈ walkADir base root t ↔
      ∃ p, p ∈ allFilesSub root t ∧ a = relpath p base := by
  simp only [walkADir, List.mem_append, List.mem_map, mem_walkASub]
  constructor
  · rintro (⟨f, hf, ha⟩ | ⟨p, hp, ha⟩)
    · exact ⟨pjoin root f, (mem_allFilesSub_split root t _).2 (Or.inl ⟨f, hf, rfl⟩),
        ha.symm⟩
    · exact ⟨p, (mem_allFilesSub_split root t _).2 (Or.inr hp), ha⟩
  · rintro ⟨p, hp, ha⟩
    rcases (mem_allFilesSub_split root t _).1 hp with ⟨f, hf, rfl⟩ | hp
    · exact Or.inl ⟨f, hf, ha.symm⟩
    · exact Or.inr ⟨p, hp, ha⟩

theorem prints_writes_fileEvents (src root : String) (t : FSList) :
    printsOf (fileEvents src root t)
      = (writesOf (fileEvents src root t)).map (fun a => Ev.pr ("Added: " ++ a)) := by
  unfold fileEvents
  induction childFiles t with
  | nil => rfl
  | cons f fs ih =>
    rw [List.flatMap_cons, printsOf_append, writesOf_append, List.map_append, ih]
    congr 1
    by_cases hex : should_exclude (pjoin root f) = true
    · simp [hex, printsOf, writesOf]
    · rw [Bool.not_eq_true] at hex
      simp [hex, printsOf, writesOf]

theorem prints_writes_walkEvSub (src root : String) (t : FSList) :
    printsOf (walkEvSub src root t)
      = (writesOf (walkEvSub src root t)).map (fun a => Ev.pr ("Added: " ++ a)) := by
  induction root, t using walkEvSub.induct src with
  | case1 root => rfl
  | case2 root f rest ih =>
    rw [walkEvSub]
    exact ih
  | case3 root d cc rest ih1 ih2 =>
    rw [walkEvSub, printsOf_append, writesOf_append, List.map_append, ih2]
    congr 1
    by_cases hex : should_exclude (pjoin root d) = true
    · simp [hex, printsOf, writesOf]
    · rw [Bool.not_eq_true] at hex
      simp only [hex, Bool.false_eq_true, if_false, printsOf_append,
        writesOf_append, List.map_append, ih1, prints_writes_fileEvents]

theorem prints_writes_walkEvDir (src root : String) (t : FSList) :
    printsOf (walkEvDir src root t)
      = (writesOf (walkEvDir src root t)).map (fun a => Ev.pr ("Added: " ++ a)) := by
  rw [walkEvDir, printsOf_append, writesOf_append, List.map_append,
    prints_writes_fileEvents, prints_writes_walkEvSub]

theorem printsOf_map_write (l : List String) : printsOf (l.map Ev.write) = [] := by
  induction l with
  | nil => rfl
  | cons a l ih =>
    simp only [List.map_cons, printsOf, List.filter_cons] at ih ⊢
    exact ih

theorem writesOf_map_write (l : List String) : writesOf (l.map Ev.write) = l := by
  induction l with
  | nil => rfl
  | cons a l ih =>
    simp only [List.map_cons, writesOf, List.filterMap_cons] at ih ⊢
    rw [ih]

/-- C1: for every path string one of whose segments is one of the exclusion
markers and is not in the allow-list of dot names, should_exclude returns
true. -/
theorem marker_segment_excluded (p seg : String)
    (hseg : seg ∈ pathParts p) (hm : seg ∈ exclude_patterns)
    (hallow : seg ∉ allowedDotNames) :
    should_exclude p = true := by
  unfold should_exclude
  rw [List.any_eq_true]
  refine ⟨seg, hseg, ?_⟩
  unfold part_excluded
  rw [show exclude_patterns.any (fun pattern => substrOf pattern seg) = true from
    List.any_eq_true.2 ⟨seg, hm, substrOf_self seg⟩]
  rfl

/-- C1 witness: the theorem applied to a concrete path with a node_modules
segment. -/
theorem marker_segment_excluded_witness :
    ("node_modules" ∈ pathParts "app/node_modules/x.js"
      ∧ "node_modules" ∈ exclude_patterns
      ∧ "node_modules" ∉ allowedDotNames)
    ∧ should_exclude "app/node_modules/x.js" = true :=
  ⟨by decide, marker_segment_excluded "app/node_modules/x.js" "node_modules"
    (by decide) (by decide) (by decide)⟩

/-- C2 counterexample: every segment of the path distribution neither starts
with a dot nor is one of the exclusion markers, yet should_exclude returns
true, because the marker dist occurs inside the segment as a substring. -/
theorem nonmarker_path_still_excluded :
    (∀ s ∈ pathParts "distribution",
        startsDot s = false ∧ s ∉ exclude_patterns)
    ∧ should_exclude "distribution" = true := by decide

/-- C2 (amended): a path all of whose segments neither start with a dot nor
contain an exclusion marker as a contiguous substring is not excluded:
should_exclude returns false. -/
theorem clean_path_not_excluded (p : String)
    (h : ∀ s ∈ pathParts p,
        (∀ pat ∈ exclude_patterns, substrOf pat s = false) ∧ startsDot s = false) :
    should_exclude p = false := by
  unfold should_exclude
  rw [List.any_eq_false]
  intro s hs
  rcases h s hs with ⟨h1, h2⟩
  have : part_excluded s = false := by
    unfold part_excluded
    rw [h2, show exclude_patterns.any (fun pattern => substrOf pattern s) = false from
      List.any_eq_false.2 (fun pat hpat => by simp [h1 pat hpat])]
    rfl
  simp [this]

/-- C2 witness: the amended theorem applied to a concrete clean path. -/
theorem clean_path_not_excluded_witness :
    (∀ s ∈ pathParts "server/routes/api.js",
        (∀ pat ∈ exclude_patterns, substrOf pat s = false) ∧ startsDot s = false)
    ∧ should_exclude "server/routes/api.js" = false :=
  ⟨by decide, clean_path_not_excluded "server/routes/api.js" (by decide)⟩

/-- C3: on the staging tree app/index.js, app/.git/config,
app/.ebextensions/env.config, Archive Builder B archives exactly
app/index.js and app/.ebextensions/env.config. -/
theorem scenario_staging_archive :
    zipEntriesB (fsOf [FSTree.dir "app" (fsOf
      [FSTree.file "index.js",
       FSTree.dir ".git" (fsOf [FSTree.file "config"]),
       FSTree.dir ".ebextensions" (fsOf [FSTree.file "env.config"])])])
    = ["app/index.js", "app/.ebextensions/env.config"] := by decide

/-- C4: an entry is in Builder B's archive exactly when it is the
staging-root-relative path of a file of the staging tree that
should_exclude keeps, and in Builder A's archive exactly when it is the
staging-root-relative path of any file of its staging tree. -/
theorem archive_roundtrip (t : FSList) (a : String) :
    (a ∈ zipEntriesB t ↔ ∃ p, p ∈ allFilesSub "clean-aws-deploy" t ∧
        should_exclude p = false ∧ a = relpath p "clean-aws-deploy")
    ∧ (a ∈ zipEntriesA t ↔ ∃ p, p ∈ allFilesSub "aws-clean-deployment" t ∧
        a = relpath p "aws-clean-deployment") :=
  ⟨mem_writes_walkEvDir "clean-aws-deploy" "clean-aws-deploy" t a,
   mem_walkADir "aws-clean-deployment" "aws-clean-deployment" t a⟩

/-- C5: a file of the staging tree one of whose ancestor paths is excluded
by the predicate never appears in Builder B's archive: the file test applied
to the full path subsumes the directory-pruning test, so pruning and file
filtering agree. -/
theorem excluded_ancestor_not_archived (t : FSList) (p q : String)
    (suf : List String)
    (hp : p ∈ allFilesSub "clean-aws-deploy" t)
    (hanc : pathParts p = pathParts q ++ suf)
    (hq : should_exclude q = true) :
    relpath p "clean-aws-deploy" ∉ zipEntriesB t := by
  intro hmem
  have hbad : should_exclude p = true := by
    unfold should_exclude at hq ⊢
    rw [hanc, List.any_append, hq, Bool.true_or]
  rcases (mem_writes_walkEvDir "clean-aws-deploy" "clean-aws-deploy" t _).1 hmem
    with ⟨p2, hp2, hex2, heq⟩
  rcases allFilesSub_shape _ t p hp with ⟨rel, rfl⟩
  rcases allFilesSub_shape _ t p2 hp2 with ⟨rel2, rfl⟩
  rw [relpath_pjoin, relpath_pjoin] at heq
  rw [← heq] at hex2
  rw [hbad] at hex2
  exact absurd hex2 (by simp)

/-- C5 witness: a file under a node_modules directory is absent from the
archive. -/
theorem excluded_ancestor_not_archived_witness :
    ("clean-aws-deploy/node_modules/a.js" ∈ allFilesSub "clean-aws-deploy"
        (fsOf [FSTree.dir "node_modules" (fsOf [FSTree.file "a.js"])])
      ∧ pathParts "clean-aws-deploy/node_modules/a.js"
          = pathParts "clean-aws-deploy/node_modules" ++ ["a.js"]
      ∧ should_exclude "clean-aws-deploy/node_modules" = true)
    ∧ relpath "clean-aws-deploy/node_modules/a.js" "clean-aws-deploy"
        ∉ zipEntriesB (fsOf [FSTree.dir "node_modules" (fsOf [FSTree.file "a.js"])]) :=
  ⟨by decide,
   excluded_ancestor_not_archived
     (fsOf [FSTree.dir "node_modules" (fsOf [FSTree.file "a.js"])])
     "clean-aws-deploy/node_modules/a.js" "clean-aws-deploy/node_modules"
     ["a.js"] (by decide) (by decide) (by decide)⟩

/-- C6: one run of Archive Builder A from any starting state succeeds and
leaves exactly the fresh archive (staging removed); running it twice in
succession also succeeds with the same single final archive, because both
deletes are guarded by existence checks; Archive Builder B's prior-archive
unlink is guarded the same way and never raises. -/
theorem guarded_deletes_single_archive (w : WorldA) (zb : Bool) :
    builderA_step w = Except.ok { zipExists := true, stagingExists := false }
    ∧ (builderA_step w >>= builderA_step)
        = Except.ok { zipExists := true, stagingExists := false }
    ∧ ∃ r, zipUnlinkGuard zb = Except.ok r := by
  rcases w with ⟨z, s⟩
  cases z <;> cases s <;> cases zb <;> exact ⟨rfl, rfl, _, rfl⟩

/-- C7 counterexample: on a staging tree with five files, Archive Builder A
writes five archive entries but prints only four lines in total (banner,
created, size, ready), so it cannot print one line per included path plus a
size summary. -/
theorem builderA_no_per_file_prints :
    (writesOf (builderA_events (fsOf [FSTree.file "f1", FSTree.file "f2",
        FSTree.file "f3", FSTree.file "f4", FSTree.file "f5"]) 0)).length = 5
    ∧ (printsOf (builderA_events (fsOf [FSTree.file "f1", FSTree.file "f2",
        FSTree.file "f3", FSTree.file "f4", FSTree.file "f5"]) 0)).length = 4 := by
  decide

/-- C7 (amended): Archive Builder B prints exactly one Added line per
archive entry, in order, followed by the created message, the size summary
over the archive byte size, and the ready message; Archive Builder A prints
only its banner and the same three closing lines, with no per-path lines. -/
theorem builder_print_traces (t : FSList) (n : Nat) :
    printsOf (builderB_events (some t) n)
      = (writesOf (builderB_events (some t) n)).map
          (fun a => Ev.pr ("Added: " ++ a))
        ++ [Ev.pr createdLineB, Ev.prSize n, Ev.pr readyLineB]
    ∧ printsOf (builderA_events t n)
      = [Ev.pr headerLineA, Ev.pr createdLineA, Ev.prSize n, Ev.pr readyLineA] := by
  constructor
  · rw [show builderB_events (some t) n
        = walkEvDir "clean-aws-deploy" "clean-aws-deploy" t
          ++ [Ev.pr createdLineB, Ev.prSize n, Ev.pr readyLineB] from rfl,
      printsOf_append, writesOf_append, prints_writes_walkEvDir]
    simp [printsOf, writesOf]
  · show printsOf (Ev.pr headerLineA :: ((zipEntriesA t).map Ev.write ++ _)) = _
    simp only [printsOf, List.filter_cons, List.filter_append]
    rw [show ((zipEntriesA t).map Ev.write).filter (fun e =>
        match e with
        | Ev.write _ => false
        | _ => true) = printsOf ((zipEntriesA t).map Ev.write) from rfl,
      printsOf_map_write]
    rfl

/-- C8: pattern matching in should_exclude is contiguous-substring
containment: any path one of whose segments contains an exclusion marker
anywhere inside it is excluded, whatever the rest of the segment is. -/
theorem substring_marker_excludes (p seg pat : String)
    (hseg : seg ∈ pathParts p) (hpat : pat ∈ exclude_patterns)
    (hsub : substrOf pat seg = true) :
    should_exclude p = true := by
  unfold should_exclude
  rw [List.any_eq_true]
  refine ⟨seg, hseg, ?_⟩
  unfold part_excluded
  rw [show exclude_patterns.any (fun pattern => substrOf pattern seg) = true from
    List.any_eq_true.2 ⟨pat, hpat, hsub⟩]
  rfl

/-- C8 witness: distribution is excluded because it contains dist. -/
theorem substring_marker_excludes_witness :
    ("distribution" ∈ pathParts "distribution"
      ∧ "dist" ∈ exclude_patterns
      ∧ substrOf "dist" "distribution" = true)
    ∧ should_exclude "distribution" = true :=
  ⟨by decide, substring_marker_excludes "distribution" "distribution" "dist"
    (by decide) (by decide) (by decide)⟩

/-- C9: the entries *.log and *.tmp are matched literally, not as
wildcards: a single-segment file name that merely ends in .log or .tmp,
contains no marker substring and does not start with a dot is not excluded,
and Archive Builder B includes it in the archive. -/
theorem literal_log_tmp_included (fname : String)
    (hend : strEndsWith fname ".log" = true ∨ strEndsWith fname ".tmp" = true)
    (hparts : pathParts fname = [fname])
    (hnomark : ∀ pat ∈ exclude_patterns, substrOf pat fname = false)
    (hnodot : startsDot fname = false) :
    should_exclude (pjoin "clean-aws-deploy" fname) = false
    ∧ zipEntriesB (fsOf [FSTree.file fname]) = [fname] := by
  have hfx : should_exclude fname = false := by
    unfold should_exclude
    rw [hparts]
    have hpe : part_excluded fname = false := by
      unfold part_excluded
      rw [hnodot, show exclude_patterns.any (fun pattern => substrOf pattern fname)
          = false from
        List.any_eq_false.2 (fun pat hpat => by simp [hnomark pat hpat])]
      rfl
    simp [hpe]
  have hpx : should_exclude (pjoin "clean-aws-deploy" fname) = false := by
    rw [should_exclude_pjoin, hfx,
      show should_exclude "clean-aws-deploy" = false from by decide]
    rfl
  refine ⟨hpx, ?_⟩
  show writesOf (walkEvDir "clean-aws-deploy" "clean-aws-deploy" _) = _
  rw [walkEvDir, show walkEvSub "clean-aws-deploy" "clean-aws-deploy"
      (fsOf [FSTree.file fname]) = [] from rfl, List.append_nil]
  simp [fileEvents, childFiles, fsOf, hpx, writesOf, relpath_pjoin]

/-- C9 witness: server.log is kept and archived. -/
theorem literal_log_tmp_included_witness :
    ((strEndsWith "server.log" ".log" = true ∨ strEndsWith "server.log" ".tmp" = true)
      ∧ pathParts "server.log" = ["server.log"]
      ∧ (∀ pat ∈ exclude_patterns, substrOf pat "server.log" = false)
      ∧ startsDot "server.log" = false)
    ∧ should_exclude (pjoin "clean-aws-deploy" "server.log") = false
    ∧ zipEntriesB (fsOf [FSTree.file "server.log"]) = ["server.log"] :=
  ⟨by decide, literal_log_tmp_included "server.log"
    (Or.inl (by decide)) (by decide) (by decide) (by decide)⟩

/-- C10: when the staging directory is missing, Archive Builder B still
succeeds: os.walk yields nothing, the run raises no error, and the created
archive has no entries. -/
theorem missing_staging_dir_ok (zb : Bool) (n : Nat) :
    ∃ es, builderB_run none zb n = Except.ok es ∧ writesOf es = [] := by
  cases zb
  · exact ⟨_, rfl, rfl⟩
  · exact ⟨_, rfl, rfl⟩
